import Mathlib

/-!
Verification of the tumblr photo downloader (tumblr-download.go, the
variant with the -all flag) against its natural-language specification.

The Go source is shallowly embedded: pure computations (URL construction,
JSONP unwrapping, filename derivation, page arithmetic) become Lean
functions on `String` / `List Char` / `Int`; the effectful driver code
(main's all-pages mode, DownloadImages, displayRawJson) becomes functions
producing an explicit trace of effects (`Effect`) together with the
process outcome (`Res.ok` = normal termination with exit status 0,
`Res.fatal` = log.Fatal, i.e. nonzero exit status).

The network and the JSON syntax checker of the Go standard library are
abstracted at the parse boundary: an HTTP response body, after JSONP
unwrapping, is represented by its parse result `Option Json` (`none` for
a body that is not syntactically valid JSON - encoding/json's Unmarshal
and Indent both reject exactly such bodies before writing anything).
Go's `int` is embedded as `Int`; the one place where 64-bit wraparound
is observable to a caller (the `(page-1)*20` offset printed by
`restRequest`) goes through `wrap64`.
-/

/-- Go struct `Post` (tumblr-download.go lines 44-51). Field `Class`
carries the JSON key `type`. -/
structure Post where
  Id : String
  Url : String
  Class : String
  Date : String
  Caption : String
  PhotoUrl : String
deriving DecidableEq, Inhabited

/-- Go struct `TumblrLog` (lines 53-56). -/
structure TumblrLog where
  Title : String
  Name : String
deriving DecidableEq, Inhabited

/-- Go struct `Tumblr` (lines 58-62): blog metadata, posts, `posts-total`. -/
structure Tumblr where
  Blog : TumblrLog
  Posts : List Post
  NumberOfPosts : Int
deriving DecidableEq, Inhabited

/-- JSON values, the shape encoding/json decodes from (numbers restricted
to integers: no claim involves fractional numbers). -/
inductive Json where
  | null : Json
  | bool : Bool → Json
  | num : Int → Json
  | str : String → Json
  | arr : List Json → Json
  | obj : List (String × Json) → Json

/-- Field lookup in a decoded JSON object; with duplicate keys the last
occurrence wins, as in encoding/json. -/
def jlookup (k : String) : List (String × Json) → Option Json
  | [] => none
  | kv :: rest =>
    match jlookup k rest with
    | some v => some v
    | none => if kv.1 = k then some kv.2 else none

/-- Decoding a JSON value into a Go `string` field: anything but a JSON
string (including absence) leaves the field at its zero value `""`. -/
def asStringJ : Option Json → String
  | some (Json.str s) => s
  | _ => ""

/-- Decoding a JSON value into a Go `int` field: anything but an integer
representable in 64 bits leaves the field at its zero value 0. -/
def asIntJ : Option Json → Int
  | some (Json.num n) =>
      if -9223372036854775808 ≤ n ∧ n ≤ 9223372036854775807 then n else 0
  | _ => 0

/-- Decode of one element of the `posts` array into `Post`
(field tags on lines 44-51): unknown keys ignored, missing or
type-mismatched keys left at zero values. -/
def decodePost : Json → Post
  | Json.obj f =>
    { Id := asStringJ (jlookup ("id") f)
      Url := asStringJ (jlookup ("url") f)
      Class := asStringJ (jlookup ("type") f)
      Date := asStringJ (jlookup ("date") f)
      Caption := asStringJ (jlookup ("photo-caption") f)
      PhotoUrl := asStringJ (jlookup ("photo-url-1280") f) }
  | _ => default

/-- Decode of the `tumblelog` object into `TumblrLog`. -/
def decodeTumblrLog : Json → TumblrLog
  | Json.obj f =>
    { Title := asStringJ (jlookup ("title") f)
      Name := asStringJ (jlookup ("name") f) }
  | _ => default

/-- Decode of a whole feed page into `Tumblr` (the tolerant
`json.Unmarshal(contents, &t)` of NewTumblr, line 68): unknown fields are
ignored, missing or mismatched fields keep their zero values. -/
def decodeTumblr : Json → Tumblr
  | Json.obj f =>
    { Blog :=
        match jlookup ("tumblelog") f with
        | some b => decodeTumblrLog b
        | none => default
      Posts :=
        match jlookup ("posts") f with
        | some (Json.arr l) => l.map decodePost
        | _ => []
      NumberOfPosts := asIntJ (jlookup ("posts-total") f) }
  | _ => default

/-- NewTumblr (lines 64-70) after the network fetch: `json.Unmarshal`'s
error is discarded, so a body that is not valid JSON (`none`) leaves the
zero-valued `Tumblr`; otherwise the tolerant decode runs. -/
def NewTumblrModel : Option Json → Tumblr
  | none => default
  | some j => decodeTumblr j

/-- Two's-complement wraparound of Go's 64-bit `int`, for the only place
arithmetic overflow would be observable (`(page-1)*20`). -/
def wrap64 (x : Int) : Int :=
  (x + 9223372036854775808) % 18446744073709551616 - 9223372036854775808

/-- URL computed by restRequest (lines 85-91): page 1 gives the bare
endpoint, any other page appends `?start=(page-1)*20` (Go int arithmetic). -/
def restRequestUrl (url : String) (page : Int) : String :=
  if page ≠ 1 then
    url ++ ("/api/read/json?start=") ++ toString (wrap64 ((page - 1) * 20))
  else
    url ++ ("/api/read/json")

/-- Go strings.Replace on character lists, for a nonempty pattern
`p0 :: ps` (the two patterns the program uses, the JSONP wrapper and
`;`, are nonempty): replaces the first `n` non-overlapping occurrences
left to right, all of them when `n < 0`. The extra `fuel` argument makes
the recursion structural; `goReplace` below instantiates it with the
length of the input, which the recursion never exceeds. -/
def goReplaceF (p0 : Char) (ps rep : List Char) : Nat → Int → List Char → List Char
  | 0, _, s => s
  | _, _, [] => []
  | Nat.succ f, n, c :: cs =>
    if n = 0 then c :: cs
    else if c = p0 ∧ List.isPrefixOf ps cs then
      rep ++ goReplaceF p0 ps rep f (n - 1) (List.drop ps.length cs)
    else
      c :: goReplaceF p0 ps rep f n cs

/-- Go `strings.Replace(s, orig, target, n)` for nonempty `orig`. -/
def goReplace (p0 : Char) (ps rep : List Char) (n : Int) (s : List Char) : List Char :=
  goReplaceF p0 ps rep s.length n s

/-- filterContent (lines 79-83): string replacement on the byte slice.
The `orig = ""` branch is unreachable in this program (both call sites
pass nonempty patterns) and is mapped to the identity. -/
def filterContent (data : List Char) (orig target : String) (n : Int) : List Char :=
  match orig.data with
  | [] => data
  | p :: ps => goReplace p ps target.data n data

/-- Pure part of GetJson (lines 72-77): strips the first occurrence of
the JSONP wrapper and then every semicolon from the response body. -/
def getJsonBody (body : List Char) : List Char :=
  filterContent (filterContent body ("var tumblr_api_read = ") ("") 1) (";") ("") (-1)

/-- Go path.Base on character lists: `"."` for the empty path, otherwise
trailing slashes are stripped, the segment after the last `/` is taken,
and `"/"` is returned if only slashes remained. -/
def pathBaseL (s : List Char) : List Char :=
  if s = [] then ['.']
  else
    let s1 := (s.reverse.dropWhile (fun c => c = '/')).reverse
    let s2 := (s1.reverse.takeWhile (fun c => c ≠ '/')).reverse
    if s2 = [] then ['/'] else s2

/-- Go path.Base on strings (downloadImage line 162). -/
def pathBase (s : String) : String :=
  String.mk (pathBaseL s.data)

/-- The segment of a string after its last `/` (the whole string when no
`/` occurs); the spec's words for the derived filename. -/
def afterLastSlashL (s : List Char) : List Char :=
  (s.reverse.takeWhile (fun c => c ≠ '/')).reverse

/-- Go strings.TrimSuffix: removes one copy of the suffix if present. -/
def goTrimSuffix (s suffixStr : String) : String :=
  if List.isSuffixOf suffixStr.data s.data then
    String.mk (s.data.take (s.data.length - suffixStr.data.length))
  else s

/-- The base URL main works with (line 179):
`url := strings.TrimSuffix(flag.Arg(0), "/")`. -/
def mainUrl (arg : String) : String :=
  goTrimSuffix arg ("/")

/-- Observable effects of the program, in order of occurrence: feed-page
GETs, photo GETs, file writes, standard-output prints, sleeps. -/
inductive Effect where
  | feedFetch : String → Effect
  | imageFetch : String → Effect
  | fileWrite : String → Effect
  | stdout : String → Effect
  | sleep : Nat → Effect
deriving DecidableEq

/-- Process outcome: `ok` is normal termination (exit status 0), `fatal`
is log.Fatal (nonzero exit status); both carry the effects so far. -/
inductive Res where
  | ok : List Effect → Res
  | fatal : List Effect → Res
deriving DecidableEq

def Res.effects : Res → List Effect
  | Res.ok e => e
  | Res.fatal e => e

def Res.exitCode : Res → Nat
  | Res.ok _ => 0
  | Res.fatal _ => 1

/-- Effects of restRequest (lines 85-110): when not silent, the request
URL is printed (fmt.Println of two operands) before the GET. -/
def restRequestEffects (url : String) (page : Int) (silent : Bool) : List Effect :=
  (if silent then []
   else [Effect.stdout (("REST Request url:  ") ++ restRequestUrl url page ++ ("\n"))])
  ++ [Effect.feedFetch (restRequestUrl url page)]

/-- downloadImage (lines 149-171): GET the photo URL, derive the
filename with path.Base, abort fatally if it is empty, otherwise write
the body to that file. -/
def downloadImage (p : Post) : Res :=
  let filename := pathBase p.PhotoUrl
  if filename = ("") then Res.fatal [Effect.imageFetch p.PhotoUrl]
  else Res.ok [Effect.imageFetch p.PhotoUrl, Effect.fileWrite filename]

/-- Silent branch of DownloadImages (lines 126-132): posts whose `type`
is not `photo` are skipped without any effect. -/
def runPostsSilent : List Post → Res
  | [] => Res.ok []
  | p :: rest =>
    if p.Class ≠ ("photo") then runPostsSilent rest
    else
      match downloadImage p with
      | Res.ok e1 =>
        match runPostsSilent rest with
        | Res.ok e2 => Res.ok (e1 ++ e2)
        | Res.fatal e2 => Res.fatal (e1 ++ e2)
      | Res.fatal e1 => Res.fatal e1

/-- Verbose branch of DownloadImages (lines 133-145): each post's index,
caption and URL are printed; non-photo posts are then skipped with a
log line, photo posts are downloaded followed by a blank line. -/
def runPostsVerbose : List Post → Nat → Res
  | [], _ => Res.ok []
  | p :: rest, i =>
    let hdr : List Effect :=
      [Effect.stdout (("Post #  ") ++ toString i ++ ("\n")),
       Effect.stdout ((" ---> Caption:  ") ++ p.Caption ++ ("\n")),
       Effect.stdout ((" ---> Url    :  ") ++ p.PhotoUrl ++ ("\n"))]
    if p.Class ≠ ("photo") then
      match runPostsVerbose rest (i + 1) with
      | Res.ok e => Res.ok (hdr ++ [Effect.stdout (" ---> SKIPPING (not photo post)\n")] ++ e)
      | Res.fatal e => Res.fatal (hdr ++ [Effect.stdout (" ---> SKIPPING (not photo post)\n")] ++ e)
    else
      match downloadImage p with
      | Res.ok e1 =>
        match runPostsVerbose rest (i + 1) with
        | Res.ok e2 => Res.ok (hdr ++ e1 ++ [Effect.stdout ("\n")] ++ e2)
        | Res.fatal e2 => Res.fatal (hdr ++ e1 ++ [Effect.stdout ("\n")] ++ e2)
      | Res.fatal e1 => Res.fatal (hdr ++ e1)

/-- DownloadImages (lines 124-147). -/
def DownloadImages (t : Tumblr) (silent : Bool) : Res :=
  if silent then runPostsSilent t.Posts else runPostsVerbose t.Posts 0

/-- Page count computed in all-pages mode (lines 195-198):
`pages := t.NumberOfPosts / 20; if t.NumberOfPosts % 20 != 0 { pages++ }`
with Go's truncated integer division. -/
def goPages (n : Int) : Int :=
  if Int.tmod n 20 ≠ 0 then Int.tdiv n 20 + 1 else Int.tdiv n 20

/-- The completion line printed by all-pages mode (line 207). -/
def doneMsg (counter : Nat) (pages : Int) : String :=
  ("Done! ") ++ toString counter ++ (" of ") ++ toString pages ++ (" pages downloaded")

/-- One iteration of the all-pages loop body (lines 201-204): fetch page
`i` quietly, download its photos quietly, then sleep 10 seconds. The
feed pages of the run are abstracted by `pageJson`, the parse result of
each page's unwrapped body. -/
def pageStep (pageJson : Int → Option Json) (url : String) (i : Int) : Res :=
  match DownloadImages (NewTumblrModel (pageJson i)) true with
  | Res.ok e => Res.ok (restRequestEffects url i true ++ e ++ [Effect.sleep 10])
  | Res.fatal e => Res.fatal (restRequestEffects url i true ++ e)

/-- The loop `for i := 1; i < pages; i++` (line 200), structurally
recursive on the remaining iteration count. -/
def allLoop (pageJson : Int → Option Json) (url : String) : Nat → Int → Res
  | 0, _ => Res.ok []
  | Nat.succ f, i =>
    match pageStep pageJson url i with
    | Res.ok e1 =>
      match allLoop pageJson url f (i + 1) with
      | Res.ok e2 => Res.ok (e1 ++ e2)
      | Res.fatal e2 => Res.fatal (e1 ++ e2)
    | Res.fatal e1 => Res.fatal e1

/-- All-pages mode (lines 193-209): fetch page `startPage` (the -page
flag, default 1) quietly for the post count, compute `pages`, run the
loop over pages 1 .. pages-1, then print the completion line and exit 0.
`pageCounter` ends equal to the number of completed iterations,
`(pages - 1).toNat`. -/
def allMode (pageJson : Int → Option Json) (url : String) (startPage : Int) : Res :=
  let n := (NewTumblrModel (pageJson startPage)).NumberOfPosts
  let pages := goPages n
  let pre := restRequestEffects url startPage true
  match allLoop pageJson url (pages - 1).toNat 1 with
  | Res.ok e => Res.ok (pre ++ e ++ [Effect.stdout (doneMsg (pages - 1).toNat pages)])
  | Res.fatal e => Res.fatal (pre ++ e)

/-- Indentation of `d` levels of four spaces, as passed to json.Indent
(line 114: one level is `"    "`). -/
def indentOf : Nat → String
  | 0 => ""
  | Nat.succ d => ("    ") ++ indentOf d

/-- Pretty-printer modelling Go json.Indent with empty line prefix and a
four-space indent unit (displayRawJson line 114); string escape handling
is elided, no claim concerns it. -/
def jIndent : Json → Nat → String
  | Json.null, _ => ("null")
  | Json.bool b, _ => if b then ("true") else ("false")
  | Json.num n, _ => toString n
  | Json.str s, _ => ("\"") ++ s ++ ("\"")
  | Json.arr [], _ => ("[]")
  | Json.arr (x :: xs), d =>
    ("[\n") ++
    String.intercalate (",\n")
      (((x :: xs).attach).map (fun y => indentOf (d + 1) ++ jIndent y.1 (d + 1)))
    ++ ("\n") ++ indentOf d ++ ("]")
  | Json.obj [], _ => ("\x7b\x7d")
  | Json.obj (f :: fs), d =>
    ("\x7b\n") ++
    String.intercalate (",\n")
      (((f :: fs).attach).map (fun y =>
        indentOf (d + 1) ++ ("\"") ++ y.1.1 ++ ("\": ") ++ jIndent y.1.2 (d + 1)))
    ++ ("\n") ++ indentOf d ++ ("\x7d")
termination_by j _ => sizeOf j
decreasing_by
  all_goals have h := List.sizeOf_lt_of_mem y.2
  · simp only [Json.arr.sizeOf_spec]
    omega
  · have h2 : sizeOf y.1.2 < sizeOf y.1 := by
      obtain ⟨a, b⟩ := y.1
      simp only [Prod.mk.sizeOf_spec]
      omega
    simp only [Json.obj.sizeOf_spec]
    omega

/-- Raw mode (main lines 187-191 and displayRawJson lines 112-122): the
page is fetched verbosely, then json.Indent either fails on a body that
is not valid JSON (`none`), hitting log.Fatal, or the indented JSON is
printed after a blank line and `---`, and the process exits 0. -/
def rawModeGo (url : String) (page : Int) (parsed : Option Json) : Res :=
  let pre := restRequestEffects url page false
  match parsed with
  | none => Res.fatal pre
  | some j =>
    Res.ok (pre ++ [Effect.stdout ("\n"), Effect.stdout ("---\n"), Effect.stdout (jIndent j 0)])

/-- The integers from `lo` (inclusive) to `hi` (exclusive), the index
sequence of a Go loop `for i := lo; i < hi; i++`. -/
def intRange (lo hi : Int) : List Int :=
  (List.range (hi - lo).toNat).map (fun k : Nat => lo + (k : Int))

/-- Effects that touch a photo: its GET or its file write. -/
def isDownloadEffectB : Effect → Bool
  | Effect.imageFetch _ => true
  | Effect.fileWrite _ => true
  | _ => false

def isFeedFetchB : Effect → Bool
  | Effect.feedFetch _ => true
  | _ => false

theorem wrap64_eq_self {x : Int} (h1 : -9223372036854775808 ≤ x)
    (h2 : x ≤ 9223372036854775807) : wrap64 x = x := by
  unfold wrap64
  rw [Int.emod_eq_of_lt (by omega) (by omega)]
  omega

/-- C2: for every base URL, the request URL is `{url}/api/read/json` for
page 1 and `{url}/api/read/json?start=(N-1)*20` for page N > 1 (within
the range where the Go 64-bit offset arithmetic is exact). -/
theorem restRequest_url_shape (u : String) (N : Int) (h1 : 1 < N)
    (h2 : -9223372036854775808 ≤ (N - 1) * 20)
    (h3 : (N - 1) * 20 ≤ 9223372036854775807) :
    restRequestUrl u 1 = u ++ ("/api/read/json")
    ∧ restRequestUrl u N = u ++ ("/api/read/json?start=") ++ toString ((N - 1) * 20) := by
  constructor
  · simp [restRequestUrl]
  · have hN : N ≠ 1 := by omega
    rw [restRequestUrl, if_pos hN, wrap64_eq_self h2 h3]

theorem restRequest_url_shape_witness :
    restRequestUrl ("http://blog.example.com") 1 = ("http://blog.example.com") ++ ("/api/read/json")
    ∧ restRequestUrl ("http://blog.example.com") 2
        = ("http://blog.example.com") ++ ("/api/read/json?start=") ++ toString ((2 - 1) * 20 : Int) :=
  restRequest_url_shape ("http://blog.example.com") 2 (by decide) (by decide) (by decide)

/-- C9: the bare endpoint is used exactly when page = 1; any other page,
0 and negative pages included, gets `?start=(page-1)*20`, so page 0
requests `{url}/api/read/json?start=-20`. -/
theorem restRequest_nonone_pages (u : String) (p : Int)
    (h2 : -9223372036854775808 ≤ (p - 1) * 20)
    (h3 : (p - 1) * 20 ≤ 9223372036854775807) :
    (p ≠ 1 → restRequestUrl u p = u ++ ("/api/read/json?start=") ++ toString ((p - 1) * 20))
    ∧ restRequestUrl u 0 = u ++ ("/api/read/json?start=-20")
    ∧ (restRequestUrl u p = u ++ ("/api/read/json") ↔ p = 1) := by
  refine ⟨fun hp => ?_, ?_, ?_, ?_⟩
  · rw [restRequestUrl, if_pos hp, wrap64_eq_self h2 h3]
  · have e : ("/api/read/json?start=" : String) ++ toString (wrap64 ((0 - 1) * 20))
        = ("/api/read/json?start=-20") := by decide
    rw [restRequestUrl, if_pos (by decide : (0 : Int) ≠ 1), String.append_assoc, e]
  · intro heq
    by_contra hp
    rw [restRequestUrl, if_pos hp] at heq
    have hlen := congrArg String.length heq
    rw [String.length_append, String.length_append, String.length_append] at hlen
    have e1 : ("/api/read/json?start=" : String).length = 21 := by decide
    have e2 : ("/api/read/json" : String).length = 14 := by decide
    omega
  · intro hp
    rw [hp, restRequestUrl]
    simp

theorem restRequest_nonone_pages_witness :
    restRequestUrl ("http://x") 0 = ("http://x") ++ ("/api/read/json?start=") ++ toString ((0 - 1) * 20 : Int)
    ∧ restRequestUrl ("http://x") 0 = ("http://x") ++ ("/api/read/json?start=-20") := by
  have h := restRequest_nonone_pages ("http://x") 0 (by decide) (by decide)
  exact ⟨h.1 (by decide), h.2.1⟩

theorem goReplaceF_zero (p0 : Char) (ps rep : List Char) (fuel : Nat) (s : List Char) :
    goReplaceF p0 ps rep fuel 0 s = s := by
  cases fuel with
  | zero => cases s <;> rfl
  | succ f =>
    cases s with
    | nil => rfl
    | cons c cs => simp [goReplaceF]

theorem isPrefixOf_nil_left (l : List Char) : List.isPrefixOf ([] : List Char) l = true := by
  cases l <;> rfl

theorem isPrefixOf_append_self (l t : List Char) : List.isPrefixOf l (l ++ t) = true := by
  induction l with
  | nil => exact isPrefixOf_nil_left t
  | cons a as ih => simp [List.isPrefixOf, ih]

/-- strings.Replace with count 1 on an input that starts with the
(nonempty) pattern replaces that leading occurrence and stops. -/
theorem filterContent_strip_leading (orig target : String) (t : List Char)
    (h : orig.data ≠ []) :
    filterContent (orig.data ++ t) orig target 1 = target.data ++ t := by
  rcases horig : orig.data with _ | ⟨p, ps⟩
  · exact absurd horig h
  · rw [filterContent]
    rw [horig]
    show goReplace p ps target.data 1 ((p :: ps) ++ t) = target.data ++ t
    rw [goReplace]
    have hlen : ((p :: ps) ++ t).length = (ps ++ t).length + 1 := by simp
    rw [hlen]
    show goReplaceF p ps target.data ((ps ++ t).length + 1) 1 (p :: (ps ++ t)) = target.data ++ t
    rw [goReplaceF]
    rw [if_neg (by decide : ¬(1 : Int) = 0), if_pos ⟨rfl, isPrefixOf_append_self ps t⟩]
    rw [List.drop_left, show (1 : Int) - 1 = 0 by decide, goReplaceF_zero]

theorem semi_not_mem (fuel : Nat) : ∀ (s : List Char) (n : Int), s.length ≤ fuel → n < 0 →
    (';') ∉ goReplaceF (';') [] [] fuel n s := by
  induction fuel with
  | zero =>
    intro s n hs _
    have : s = [] := List.length_eq_zero.mp (Nat.le_zero.mp hs)
    subst this
    simp [goReplaceF]
  | succ f ih =>
    intro s n hs hn
    cases s with
    | nil => simp [goReplaceF]
    | cons c cs =>
      rw [goReplaceF, if_neg (by omega : ¬n = 0)]
      by_cases hc : c = ';'
      · rw [if_pos ⟨hc, isPrefixOf_nil_left cs⟩]
        simp only [List.nil_append]
        exact ih cs (n - 1) (by simpa using hs) (by omega)
      · rw [if_neg (by simp [hc])]
        intro hmem
        rcases List.mem_cons.mp hmem with h1 | h2
        · exact hc h1.symm
        · exact ih cs n (by simpa using hs) hn h2

/-- C3: GetJson's filtering removes the first occurrence of the JSONP
wrapper `var tumblr_api_read = ` and every semicolon; on the concrete
wrapped body the result is exactly the bare JSON text. -/
theorem getJson_jsonp_unwrap :
    (∀ rest : List Char,
        getJsonBody (("var tumblr_api_read = ").data ++ rest)
          = filterContent rest (";") ("") (-1))
    ∧ (∀ body : List Char, (';') ∉ getJsonBody body)
    ∧ getJsonBody (("var tumblr_api_read = \x7b\"a\":1\x7d;").data)
        = ("\x7b\"a\":1\x7d").data := by
  refine ⟨fun rest => ?_, fun body => ?_, by decide⟩
  · rw [getJsonBody, filterContent_strip_leading _ _ _ (by decide)]
    rfl
  · show (';') ∉ filterContent (filterContent body ("var tumblr_api_read = ") ("") 1) (";") ("") (-1)
    have hsemi : ∀ X : List Char, filterContent X (";") ("") (-1)
        = goReplaceF (';') [] [] X.length (-1) X := fun X => rfl
    rw [hsemi]
    exact semi_not_mem _ _ _ le_rfl (by decide)

theorem pathBaseL_ne_nil (s : List Char) : pathBaseL s ≠ [] := by
  unfold pathBaseL
  split
  · simp
  · dsimp only
    split
    · simp
    · assumption

theorem pathBase_ne_empty (s : String) : pathBase s ≠ ("") := by
  intro h
  have hd := congrArg String.data h
  simp only [pathBase] at hd
  exact pathBaseL_ne_nil s.data hd

theorem downloadImage_eq (p : Post) :
    downloadImage p = Res.ok [Effect.imageFetch p.PhotoUrl, Effect.fileWrite (pathBase p.PhotoUrl)] := by
  simp only [downloadImage]
  rw [if_neg (pathBase_ne_empty p.PhotoUrl)]

/-- Go path.Base agrees with the plain segment after the last slash on
every path that is nonempty and has no trailing slash. -/
theorem pathBaseL_eq_afterLastSlash (l : List Char) (h1 : l ≠ [])
    (h2 : l.getLast? ≠ some '/') : pathBaseL l = afterLastSlashL l := by
  obtain ⟨c, t, hr⟩ : ∃ c t, l.reverse = c :: t := by
    cases hl : l.reverse with
    | nil => exact absurd (List.reverse_eq_nil_iff.mp hl) h1
    | cons c t => exact ⟨c, t, rfl⟩
  have hc : ¬(c = '/') := by
    intro hcc
    apply h2
    rw [← List.head?_reverse, hr, hcc]
    rfl
  have hdw : l.reverse.dropWhile (fun c => c = '/') = l.reverse := by
    rw [hr, List.dropWhile_cons, if_neg (by simpa using hc)]
  have htw : ∃ u, l.reverse.takeWhile (fun c => c ≠ '/') = c :: u := by
    refine ⟨t.takeWhile (fun c => c ≠ '/'), ?_⟩
    rw [hr, List.takeWhile_cons, if_pos (by simpa using hc)]
  obtain ⟨u, hu⟩ := htw
  unfold pathBaseL afterLastSlashL
  rw [if_neg h1]
  dsimp only
  rw [hdw, List.reverse_reverse, hu]
  rw [if_neg (by simp)]

/-- C5 as stated is false: a photo post whose URL ends in a slash has an
empty final segment, yet the program neither aborts nor uses that empty
segment - path.Base strips the trailing slash and the file is written
under the previous segment. -/
theorem downloadImage_filename_counterexample :
    downloadImage ⟨(""), (""), ("photo"), (""), (""), ("https://x.tumblr.com/abc/")⟩
      = Res.ok [Effect.imageFetch ("https://x.tumblr.com/abc/"), Effect.fileWrite ("abc")]
    ∧ afterLastSlashL (("https://x.tumblr.com/abc/").data) = [] := by
  constructor <;> decide

/-- C5 amended: the filename is Go path.Base of the photo URL, which for
a nonempty URL without trailing slash is exactly the segment after the
last `/`; the code's fatal branch on an empty derived name exists but is
unreachable, since path.Base never returns the empty string. -/
theorem downloadImage_filename (p : Post) (h1 : p.PhotoUrl.data ≠ [])
    (h2 : p.PhotoUrl.data.getLast? ≠ some '/') :
    downloadImage p = Res.ok [Effect.imageFetch p.PhotoUrl,
        Effect.fileWrite (String.mk (afterLastSlashL p.PhotoUrl.data))]
    ∧ (∀ q : Post, pathBase q.PhotoUrl = ("") →
        downloadImage q = Res.fatal [Effect.imageFetch q.PhotoUrl])
    ∧ (∀ s : String, pathBase s ≠ ("")) := by
  refine ⟨?_, fun q hq => ?_, pathBase_ne_empty⟩
  · rw [downloadImage_eq]
    rw [pathBase, pathBaseL_eq_afterLastSlash p.PhotoUrl.data h1 h2]
  · simp only [downloadImage]
    rw [if_pos hq]

theorem downloadImage_filename_witness :
    downloadImage ⟨(""), (""), ("photo"), (""), (""), ("https://x.tumblr.com/abc/image123.jpg")⟩
      = Res.ok [Effect.imageFetch ("https://x.tumblr.com/abc/image123.jpg"),
          Effect.fileWrite ("image123.jpg")] := by
  have h := downloadImage_filename
    ⟨(""), (""), ("photo"), (""), (""), ("https://x.tumblr.com/abc/image123.jpg")⟩
    (by decide) (by decide)
  exact h.1.trans (by decide)

/-- The silent download pass always succeeds and its effects are exactly
the photo posts' fetch-and-write pairs, in post order. -/
theorem runPostsSilent_eq (l : List Post) :
    runPostsSilent l
      = Res.ok ((l.filter (fun p => p.Class == ("photo"))).flatMap
          (fun p => Res.effects (downloadImage p))) := by
  induction l with
  | nil => simp [runPostsSilent]
  | cons p rest ih =>
    by_cases hc : p.Class = ("photo")
    · rw [runPostsSilent, if_neg (by simp [hc]), downloadImage_eq, ih]
      simp [List.filter_cons, hc, downloadImage_eq, Res.effects]
    · rw [runPostsSilent, if_pos hc, ih]
      simp [List.filter_cons, hc]

/-- The verbose download pass also always succeeds, and its photo-related
effects (image fetches and file writes) are exactly those of the photo
posts; stdout logging is the only other effect. -/
theorem runPostsVerbose_eq (l : List Post) : ∀ i : Nat, ∃ e,
    runPostsVerbose l i = Res.ok e
    ∧ e.filter isDownloadEffectB
        = (l.filter (fun p => p.Class == ("photo"))).flatMap
            (fun p => Res.effects (downloadImage p)) := by
  induction l with
  | nil => intro i; exact ⟨[], rfl, by simp⟩
  | cons p rest ih =>
    intro i
    obtain ⟨e, he, hf⟩ := ih (i + 1)
    by_cases hc : p.Class = ("photo")
    · have hstep : runPostsVerbose (p :: rest) i
          = Res.ok ([Effect.stdout (("Post #  ") ++ toString i ++ ("\n")),
              Effect.stdout ((" ---> Caption:  ") ++ p.Caption ++ ("\n")),
              Effect.stdout ((" ---> Url    :  ") ++ p.PhotoUrl ++ ("\n"))]
            ++ [Effect.imageFetch p.PhotoUrl, Effect.fileWrite (pathBase p.PhotoUrl)]
            ++ [Effect.stdout ("\n")] ++ e) := by
        rw [runPostsVerbose, if_neg (by simp [hc]), downloadImage_eq, he]
      refine ⟨_, hstep, ?_⟩
      simp [List.filter_cons, List.filter_append, hc, hf, downloadImage_eq,
        Res.effects, isDownloadEffectB]
    · have hstep : runPostsVerbose (p :: rest) i
          = Res.ok ([Effect.stdout (("Post #  ") ++ toString i ++ ("\n")),
              Effect.stdout ((" ---> Caption:  ") ++ p.Caption ++ ("\n")),
              Effect.stdout ((" ---> Url    :  ") ++ p.PhotoUrl ++ ("\n"))]
            ++ [Effect.stdout (" ---> SKIPPING (not photo post)\n")] ++ e) := by
        rw [runPostsVerbose, if_pos hc, he]
      refine ⟨_, hstep, ?_⟩
      simp [List.filter_cons, List.filter_append, hc, hf, isDownloadEffectB]

theorem filter_dl_flatMap (l : List Post) :
    (l.flatMap (fun p => Res.effects (downloadImage p))).filter isDownloadEffectB
      = l.flatMap (fun p => Res.effects (downloadImage p)) := by
  induction l with
  | nil => simp
  | cons p rest ih =>
    simp [downloadImage_eq, Res.effects, isDownloadEffectB, ih, List.filter_append]
    rintro a x hx (rfl | rfl) <;> rfl

/-- C4: in both the silent and the verbose path, the image fetches and
file writes performed by DownloadImages are exactly those of the posts
whose `type` is `photo`; a post of any other type contributes no fetch
and no write. -/
theorem downloadImages_skips_non_photo (t : Tumblr) (silent : Bool) :
    (Res.effects (DownloadImages t silent)).filter isDownloadEffectB
      = (t.Posts.filter (fun p => p.Class == ("photo"))).flatMap
          (fun p => Res.effects (downloadImage p)) := by
  cases silent with
  | true =>
    rw [DownloadImages, if_pos rfl, runPostsSilent_eq]
    simp only [Res.effects]
    exact filter_dl_flatMap _
  | false =>
    obtain ⟨e, he, hf⟩ := runPostsVerbose_eq t.Posts 0
    rw [DownloadImages, if_neg (by simp), he]
    exact hf

theorem pageStep_ok (pageJson : Int → Option Json) (url : String) (i : Int) :
    pageStep pageJson url i
      = Res.ok ([Effect.feedFetch (restRequestUrl url i)]
          ++ Res.effects (DownloadImages (NewTumblrModel (pageJson i)) true)
          ++ [Effect.sleep 10]) := by
  simp [pageStep, DownloadImages, runPostsSilent_eq, Res.effects, restRequestEffects]

theorem allLoop_ok (pageJson : Int → Option Json) (url : String) :
    ∀ (fuel : Nat) (i : Int),
      allLoop pageJson url fuel i
        = Res.ok (((List.range fuel).map (fun k : Nat => i + (k : Int))).flatMap
            (fun q => Res.effects (pageStep pageJson url q))) := by
  intro fuel
  induction fuel with
  | zero => intro i; simp [allLoop]
  | succ f ih =>
    intro i
    have hr : ((List.range (f + 1)).map (fun k : Nat => i + (k : Int)))
        = i :: ((List.range f).map (fun k : Nat => (i + 1) + (k : Int))) := by
      rw [List.range_succ_eq_map, List.map_cons, List.map_map]
      have hcomp : (fun k : Nat => i + (k : Int)) ∘ Nat.succ
          = fun k : Nat => (i + 1) + (k : Int) := by
        funext k
        simp [Nat.succ_eq_add_one]
        ring
      rw [hcomp]
      simp
    rw [allLoop, pageStep_ok, ih (i + 1), hr]
    simp [List.flatMap_cons, pageStep_ok, Res.effects]

/-- All-pages mode always terminates normally: one quiet metadata fetch
of the start page, then the loop body for each page index in
`[1, pages)`, then the completion line. -/
theorem allMode_eq (pageJson : Int → Option Json) (url : String) (startPage : Int) :
    allMode pageJson url startPage
      = Res.ok ([Effect.feedFetch (restRequestUrl url startPage)]
          ++ (intRange 1 (goPages (NewTumblrModel (pageJson startPage)).NumberOfPosts)).flatMap
              (fun i => Res.effects (pageStep pageJson url i))
          ++ [Effect.stdout (doneMsg
                ((goPages (NewTumblrModel (pageJson startPage)).NumberOfPosts - 1).toNat)
                (goPages (NewTumblrModel (pageJson startPage)).NumberOfPosts))]) := by
  rw [allMode]
  rw [allLoop_ok pageJson url
    ((goPages (NewTumblrModel (pageJson startPage)).NumberOfPosts) - 1).toNat 1]
  simp [restRequestEffects, intRange]

theorem goPages_bounds {n : Int} (h : 0 ≤ n) :
    20 * (goPages n - 1) < n ∧ n ≤ 20 * goPages n := by
  have ht := Int.tdiv_add_tmod n 20
  have h0 := Int.tmod_nonneg 20 h
  have h1 := Int.tmod_lt_of_pos n (by norm_num : (0 : Int) < 20)
  rw [goPages]
  split
  · constructor <;> omega
  · constructor <;> omega

/-- For a nonnegative post count the Go page computation is the ceiling
of `totalPostCount / 20`. -/
theorem goPages_eq_ceil {n : Int} (h : 0 ≤ n) : goPages n = ⌈(n : ℚ) / 20⌉ := by
  obtain ⟨hlt, hle⟩ := goPages_bounds h
  symm
  rw [Int.ceil_eq_iff]
  constructor
  · rw [lt_div_iff₀ (by norm_num : (0 : ℚ) < 20)]
    have hc : ((20 * (goPages n - 1) : Int) : ℚ) < ((n : Int) : ℚ) := by
      exact_mod_cast hlt
    push_cast at hc
    linarith
  · rw [div_le_iff₀ (by norm_num : (0 : ℚ) < 20)]
    have hc : ((n : Int) : ℚ) ≤ ((20 * goPages n : Int) : ℚ) := by
      exact_mod_cast hle
    push_cast at hc
    linarith

theorem mem_intRange {lo hi i : Int} : i ∈ intRange lo hi ↔ lo ≤ i ∧ i < hi := by
  simp only [intRange, List.mem_map, List.mem_range]
  constructor
  · rintro ⟨k, hk, rfl⟩
    omega
  · rintro ⟨ha, hb⟩
    exact ⟨(i - lo).toNat, by omega, by omega⟩

/-- C1: in all-pages mode the page count is `ceil(totalPostCount/20)`,
the download loop runs over exactly the page indices 1 .. pages-1 (each
iteration fetching and downloading that page, then sleeping), the last
computed page is never fetched, and totalPostCount = 45 gives pages = 3
with only pages 1 and 2 processed. -/
theorem allPages_page_boundary (pageJson : Int → Option Json) (url : String)
    (h : 0 ≤ (NewTumblrModel (pageJson 1)).NumberOfPosts) :
    goPages (NewTumblrModel (pageJson 1)).NumberOfPosts
      = ⌈(((NewTumblrModel (pageJson 1)).NumberOfPosts : Int) : ℚ) / 20⌉
    ∧ allMode pageJson url 1
      = Res.ok ([Effect.feedFetch (restRequestUrl url 1)]
          ++ (intRange 1 (goPages (NewTumblrModel (pageJson 1)).NumberOfPosts)).flatMap
              (fun i => Res.effects (pageStep pageJson url i))
          ++ [Effect.stdout (doneMsg
                ((goPages (NewTumblrModel (pageJson 1)).NumberOfPosts - 1).toNat)
                (goPages (NewTumblrModel (pageJson 1)).NumberOfPosts))])
    ∧ (∀ i : Int, i ∈ intRange 1 (goPages (NewTumblrModel (pageJson 1)).NumberOfPosts)
        ↔ 1 ≤ i ∧ i ≤ goPages (NewTumblrModel (pageJson 1)).NumberOfPosts - 1)
    ∧ goPages (NewTumblrModel (pageJson 1)).NumberOfPosts
        ∉ intRange 1 (goPages (NewTumblrModel (pageJson 1)).NumberOfPosts)
    ∧ goPages 45 = 3 ∧ intRange 1 (goPages 45) = [1, 2] := by
  refine ⟨goPages_eq_ceil h, allMode_eq pageJson url 1, fun i => ?_, ?_, by decide, by decide⟩
  · rw [mem_intRange]
    omega
  · rw [mem_intRange]
    omega

def feed45 : Int → Option Json :=
  fun _ => some (Json.obj [(("posts-total"), Json.num 45)])

theorem allPages_page_boundary_witness :
    goPages 45 = 3 ∧ intRange 1 (goPages 45) = [1, 2] :=
  (allPages_page_boundary feed45 ("http://b") (by decide)).2.2.2.2

/-- C10: with a total post count between 1 and 20 the computed page
count is 1, the download loop body never runs (no page fetched for
download, no image fetched, no file written), and the program prints
`Done! 0 of 1 pages downloaded` and exits with status 0 after the single
quiet metadata fetch. -/
theorem allPages_single_page (pageJson : Int → Option Json) (url : String)
    (h1 : 1 ≤ (NewTumblrModel (pageJson 1)).NumberOfPosts)
    (h2 : (NewTumblrModel (pageJson 1)).NumberOfPosts ≤ 20) :
    goPages (NewTumblrModel (pageJson 1)).NumberOfPosts = 1
    ∧ intRange 1 (goPages (NewTumblrModel (pageJson 1)).NumberOfPosts) = []
    ∧ allMode pageJson url 1
        = Res.ok [Effect.feedFetch (restRequestUrl url 1), Effect.stdout (doneMsg 0 1)]
    ∧ doneMsg 0 1 = ("Done! 0 of 1 pages downloaded")
    ∧ (Res.effects (allMode pageJson url 1)).filter isDownloadEffectB = []
    ∧ (Res.effects (allMode pageJson url 1)).countP isFeedFetchB = 1
    ∧ Res.exitCode (allMode pageJson url 1) = 0 := by
  have ht := Int.tdiv_add_tmod (NewTumblrModel (pageJson 1)).NumberOfPosts 20
  have h0 := Int.tmod_nonneg 20 (by omega : 0 ≤ (NewTumblrModel (pageJson 1)).NumberOfPosts)
  have hm := Int.tmod_lt_of_pos (NewTumblrModel (pageJson 1)).NumberOfPosts
    (by norm_num : (0 : Int) < 20)
  have hp : goPages (NewTumblrModel (pageJson 1)).NumberOfPosts = 1 := by
    rw [goPages]
    split
    · omega
    · omega
  have hrange : intRange 1 (goPages (NewTumblrModel (pageJson 1)).NumberOfPosts) = [] := by
    rw [hp]
    decide
  have hall : allMode pageJson url 1
      = Res.ok [Effect.feedFetch (restRequestUrl url 1), Effect.stdout (doneMsg 0 1)] := by
    rw [allMode_eq, hp, show intRange 1 1 = [] from rfl,
      show ((1 : Int) - 1).toNat = 0 from rfl]
    simp
  refine ⟨hp, hrange, hall, by decide, ?_, ?_, ?_⟩
  · rw [hall]
    rfl
  · rw [hall]
    rfl
  · rw [hall]
    rfl

def feed5 : Int → Option Json :=
  fun _ => some (Json.obj [(("posts-total"), Json.num 5)])

theorem allPages_single_page_witness :
    allMode feed5 ("http://u") 1
      = Res.ok [Effect.feedFetch (restRequestUrl ("http://u") 1), Effect.stdout (doneMsg 0 1)] :=
  (allPages_single_page feed5 ("http://u") (by decide) (by decide)).2.2.1

theorem jlookup_cons_ne (key k : String) (v : Json) (fields : List (String × Json))
    (h : k ≠ key) : jlookup key ((k, v) :: fields) = jlookup key fields := by
  rw [jlookup]
  cases jlookup key fields with
  | some w => rfl
  | none => simp [h]

/-- C7: the feed parse step never fails: an invalid body leaves every
field of the zero-valued `Tumblr`; in an object, a missing `posts-total`,
`tumblelog` or `posts` key leaves the corresponding field at its zero
value, and an unknown key is ignored entirely. -/
theorem newTumblr_permissive :
    NewTumblrModel none
      = { Blog := { Title := (""), Name := ("") }, Posts := [], NumberOfPosts := 0 }
    ∧ (∀ fields, (jlookup ("posts-total") fields).isNone = true →
        (decodeTumblr (Json.obj fields)).NumberOfPosts = 0)
    ∧ (∀ fields, (jlookup ("tumblelog") fields).isNone = true →
        (decodeTumblr (Json.obj fields)).Blog = { Title := (""), Name := ("") })
    ∧ (∀ fields, (jlookup ("posts") fields).isNone = true →
        (decodeTumblr (Json.obj fields)).Posts = [])
    ∧ (∀ fields (k : String) (v : Json), k ≠ ("tumblelog") → k ≠ ("posts") →
        k ≠ ("posts-total") →
        decodeTumblr (Json.obj ((k, v) :: fields)) = decodeTumblr (Json.obj fields)) := by
  refine ⟨rfl, fun fields h => ?_, fun fields h => ?_, fun fields h => ?_,
    fun fields k v h1 h2 h3 => ?_⟩
  · rw [Option.isNone_iff_eq_none] at h
    simp [decodeTumblr, h, asIntJ]
  · rw [Option.isNone_iff_eq_none] at h
    simp [decodeTumblr, h]
    rfl
  · rw [Option.isNone_iff_eq_none] at h
    simp [decodeTumblr, h]
  · simp only [decodeTumblr]
    rw [jlookup_cons_ne _ _ _ _ h1, jlookup_cons_ne _ _ _ _ h2, jlookup_cons_ne _ _ _ _ h3]

theorem newTumblr_permissive_witness :
    (decodeTumblr (Json.obj [(("x"), Json.num 7)])).NumberOfPosts = 0
    ∧ decodeTumblr (Json.obj [(("x"), Json.num 7)]) = decodeTumblr (Json.obj []) := by
  have h := newTumblr_permissive
  exact ⟨h.2.1 [(("x"), Json.num 7)] (by decide),
    h.2.2.2.2 [] ("x") (Json.num 7) (by decide) (by decide) (by decide)⟩

/-- C8 as stated is false: on a response body that is not valid JSON
(parse result `none`, e.g. a body reading `hello`), raw mode hits
log.Fatal in displayRawJson and exits with a nonzero status instead of
status 0 - though it still writes no file and downloads no image. -/
theorem rawMode_exit_counterexample :
    Res.exitCode (rawModeGo ("http://example.tumblr.com") 1 none) = 1
    ∧ (Res.effects (rawModeGo ("http://example.tumblr.com") 1 none)).filter isDownloadEffectB
        = [] := by
  constructor <;> rfl

/-- C8 amended: raw mode fetches exactly one feed page and never
downloads an image or writes a file, for every response; when the
unwrapped body is valid JSON it prints the four-space-indented JSON to
standard output and exits with status 0, and only an invalid body makes
it exit fatally. -/
theorem rawMode_behavior (url : String) (page : Int) (j : Json) :
    rawModeGo url page (some j)
      = Res.ok [Effect.stdout (("REST Request url:  ") ++ restRequestUrl url page ++ ("\n")),
          Effect.feedFetch (restRequestUrl url page),
          Effect.stdout ("\n"), Effect.stdout ("---\n"), Effect.stdout (jIndent j 0)]
    ∧ Res.exitCode (rawModeGo url page (some j)) = 0
    ∧ (∀ parsed : Option Json,
        (Res.effects (rawModeGo url page parsed)).filter isDownloadEffectB = [])
    ∧ (∀ parsed : Option Json,
        (Res.effects (rawModeGo url page parsed)).countP isFeedFetchB = 1) := by
  refine ⟨by simp [rawModeGo, restRequestEffects], rfl, fun parsed => ?_, fun parsed => ?_⟩
  · cases parsed <;> rfl
  · cases parsed <;> rfl

/-- C6: a trailing slash on the blog URL argument is stripped by main
before any request is built, so every constructed request URL consists
of the slash-free base followed directly by the `/api/read/json`
endpoint path. (A single trailing slash is assumed: the hypotheses say
the argument ends in `/` and the character before it is not `/`.) -/
theorem mainUrl_trailing_slash (arg : String) (page : Int)
    (h1 : arg.data.getLast? = some '/')
    (h2 : arg.data.dropLast.getLast? ≠ some '/') :
    mainUrl arg = String.mk arg.data.dropLast
    ∧ (mainUrl arg).data.getLast? ≠ some '/'
    ∧ restRequestUrl (mainUrl arg) 1 = mainUrl arg ++ ("/api/read/json")
    ∧ (page ≠ 1 → restRequestUrl (mainUrl arg) page
        = mainUrl arg ++ ("/api/read/json?start=") ++ toString (wrap64 ((page - 1) * 20))) := by
  have hne : arg.data ≠ [] := by
    intro hh
    rw [hh] at h1
    exact Option.noConfusion h1
  obtain ⟨c, t, hr⟩ : ∃ c t, arg.data.reverse = c :: t := by
    cases hl : arg.data.reverse with
    | nil => exact absurd (List.reverse_eq_nil_iff.mp hl) hne
    | cons c t => exact ⟨c, t, rfl⟩
  have hc : c = '/' := by
    have hh := List.head?_reverse arg.data
    rw [hr, h1] at hh
    exact Option.some.inj hh
  have hdata : arg.data = t.reverse ++ ['/'] := by
    have := congrArg List.reverse hr
    rw [List.reverse_reverse] at this
    rw [this, hc, List.reverse_cons]
  have hdrop : arg.data.dropLast = t.reverse := by
    rw [hdata, List.dropLast_concat]
  have hmain : mainUrl arg = String.mk arg.data.dropLast := by
    rw [mainUrl, goTrimSuffix, if_pos]
    · congr 1
      rw [hdata, List.dropLast_concat]
      have hlen : (t.reverse ++ ['/']).length - ("/" : String).data.length = t.reverse.length := by
        simp
      rw [hlen, List.take_left]
    · rw [hdata]
      show List.isPrefixOf (['/'].reverse) ((t.reverse ++ ['/']).reverse) = true
      rw [List.reverse_append]
      exact isPrefixOf_append_self _ _
  refine ⟨hmain, ?_, by simp [restRequestUrl], fun hp => by rw [restRequestUrl, if_pos hp]⟩
  rw [hmain, hdrop]
  exact fun hh => h2 (by rw [hdrop]; exact hh)

theorem mainUrl_trailing_slash_witness :
    mainUrl ("http://blog.tumblr.com/") = ("http://blog.tumblr.com")
    ∧ restRequestUrl (mainUrl ("http://blog.tumblr.com/")) 1
        = mainUrl ("http://blog.tumblr.com/") ++ ("/api/read/json") := by
  have h := mainUrl_trailing_slash ("http://blog.tumblr.com/") 2 (by decide) (by decide)
  exact ⟨h.1.trans (by decide), h.2.2.1⟩
